import Mathlib

namespace Inout

/-!
Shallow embedding of the INOUT ledger-aggregation logic, translated from
src/unnamed/part_002 (the full App.jsx variant), src/src/App.jsx and
src/unnamed/part_001.

JavaScript numbers that arise from `amount` arithmetic are modelled as
`Option ℚ`: `some q` is an ordinary finite number, `none` is NaN.  The raw
value stored in an `amount` field is modelled by `JsAmount`, which keeps
exactly the distinctions `Number(x || 0)` cares about.  ASCII case mapping
stands in for the JS `toLowerCase`/`toUpperCase` (all data in scope is ASCII).
-/

/-- A value found in an `amount` field: a number, a string parsing as the
number `q`, a non-empty string that does not parse as a number, the empty
string, `null`, or a missing field. -/
inductive JsAmount where
  | num (q : ℚ)
  | numStr (q : ℚ)
  | badStr
  | emptyStr
  | jsNull
  | undef
deriving DecidableEq

/-- `Number(a || 0)` as used in every `reduce` of the source: falsy amounts
(`0`, `""`, `null`, `undefined`) are replaced by `0` before conversion, and
`Number` of a non-numeric non-empty string is NaN (`none`). -/
def amountNum : JsAmount → Option ℚ
  | .num q => some q
  | .numStr q => some q
  | .badStr => none
  | .emptyStr => some 0
  | .jsNull => some 0
  | .undef => some 0

/-- JS `+` on numbers, with NaN (`none`) propagating. -/
def jsAdd : Option ℚ → Option ℚ → Option ℚ
  | some a, some b => some (a + b)
  | _, _ => none

/-- JS `-` on numbers, with NaN (`none`) propagating. -/
def jsSub : Option ℚ → Option ℚ → Option ℚ
  | some a, some b => some (a - b)
  | _, _ => none

/-- A `created_at` timestamp: `y` and `m` are what `new Date(d).getFullYear()`
and `.getMonth()` return for it, `t` is the epoch value used when two dates
are compared (the sort comparator `new Date(b) - new Date(a)`). -/
structure Instant where
  y : ℤ
  m : ℤ
  t : ℤ
deriving DecidableEq

/-- A `transactions` (IN / deposit) row, restricted to the fields the
aggregation reads. -/
structure TxRec where
  user_id : String
  amount : JsAmount
  created_at : Instant
deriving DecidableEq

/-- A `withdrawals` (OUT / request) row, restricted to the fields the
aggregation reads.  `status` and `client_account` are `none` when the column
is null or missing. -/
structure WdRec where
  user_id : String
  amount : JsAmount
  created_at : Instant
  status : Option String
  client_account : Option String
deriving DecidableEq

/-- A row of the `employees` list (profile data): `user_id`, `full_name`,
`email`, the latter two possibly null/missing. -/
structure Employee where
  user_id : String
  full_name : Option String
  email : Option String
deriving DecidableEq

/-- `inMonth(d, y, m)` from part_002 line 31: the record's date has the given
calendar year and 0-indexed month. -/
def inMonth (d : Instant) (y m : ℤ) : Bool :=
  d.y == y && d.m == m

/-- One step of `reduce((a, b) => a + Number(b.amount || 0), 0)` on an IN row. -/
def addAmtTx (a : Option ℚ) (t : TxRec) : Option ℚ :=
  jsAdd a (amountNum t.amount)

/-- One step of the same reduce on an OUT row. -/
def addAmtWd (a : Option ℚ) (w : WdRec) : Option ℚ :=
  jsAdd a (amountNum w.amount)

/-- `rows.reduce((a, b) => a + Number(b.amount || 0), 0)` over IN rows. -/
def sumAmountsTx (tx : List TxRec) : Option ℚ :=
  tx.foldl addAmtTx (some 0)

/-- `rows.reduce((a, b) => a + Number(b.amount || 0), 0)` over OUT rows. -/
def sumAmountsWd (wd : List WdRec) : Option ℚ :=
  wd.foldl addAmtWd (some 0)

/-- `myTxThisMonth` (part_002 line 360): the viewer's own IN rows of the
selected month. -/
def myTxThisMonth (tx : List TxRec) (uid : String) (y m : ℤ) : List TxRec :=
  tx.filter (fun t => t.user_id == uid && inMonth t.created_at y m)

/-- `myInTotal` (part_002 line 361). -/
def myInTotal (tx : List TxRec) (uid : String) (y m : ℤ) : Option ℚ :=
  sumAmountsTx (myTxThisMonth tx uid y m)

/-- `myWdAll` (part_002 line 362): the viewer's own withdrawal requests. -/
def myWdAll (wd : List WdRec) (uid : String) : List WdRec :=
  wd.filter (fun w => w.user_id == uid)

/-- `myWdThisMonth` (part_002 line 363). -/
def myWdThisMonth (wd : List WdRec) (uid : String) (y m : ℤ) : List WdRec :=
  (myWdAll wd uid).filter (fun w => inMonth w.created_at y m)

/-- `myOutApprovedTotal` (part_002 line 364): note the status test is the
fixed `w.status === "approved"`, independent of any flag. -/
def myOutApprovedTotal (wd : List WdRec) (uid : String) (y m : ℤ) : Option ℚ :=
  sumAmountsWd ((myWdThisMonth wd uid y m).filter (fun w => w.status == some "approved"))

/-- `outsForTotals` (part_002 line 700, identical to `outRows` at line 369 and
to the filter in fetchOUT of src/src/App.jsx line 106): when the
include-pending flag is set the withdrawal list is taken whole, otherwise it
is restricted to `status === "approved"`. -/
def outsForTotals (wd : List WdRec) (includePendingOut : Bool) : List WdRec :=
  if includePendingOut then wd else wd.filter (fun w => w.status == some "approved")

/-- Result record of `managerTotals`. -/
structure MTot where
  totalIn : Option ℚ
  totalOut : Option ℚ
  totalNet : Option ℚ
deriving DecidableEq

/-- `managerTotals` (part_002 lines 367-373): zeros for a non-manager,
otherwise total IN over all fetched IN rows, total OUT over `outsForTotals`,
and net = in - out. -/
def managerTotals (isManager : Bool) (tx : List TxRec) (wd : List WdRec)
    (includePendingOut : Bool) : MTot :=
  if !isManager then ⟨some 0, some 0, some 0⟩ else
  let outRows := outsForTotals wd includePendingOut
  let totalIn := sumAmountsTx tx
  let totalOut := sumAmountsWd outRows
  ⟨totalIn, totalOut, jsSub totalIn totalOut⟩

/-- A per-employee accumulator entry, `{ inTotal: 0, outTotal: 0, inCount: 0,
outCount: 0 }` in the source. -/
structure ETot where
  inTotal : Option ℚ
  outTotal : Option ℚ
  inCount : ℕ
  outCount : ℕ
deriving DecidableEq

/-- The default entry used by `totals.get(uid) || {...}`. -/
def emptyETot : ETot := ⟨some 0, some 0, 0, 0⟩

/-- `totals.get(k)` with the `|| default`: first binding for the key, else the
zero entry.  JS `Map` keys are unique, so the first binding is the binding. -/
def mapGetD : List (String × ETot) → String → ETot
  | [], _ => emptyETot
  | p :: rest, k => if p.1 == k then p.2 else mapGetD rest k

/-- `totals.set(k, v)`: JS `Map.set` overwrites an existing key in place
(keeping its position) and appends a new key at the end. -/
def mapSet : List (String × ETot) → String → ETot → List (String × ETot)
  | [], k, v => [(k, v)]
  | p :: rest, k, v => if p.1 == k then (k, v) :: rest else p :: mapSet rest k v

/-- `totals.has`-style key test (the map's key set). -/
def hasKey (m : List (String × ETot)) (k : String) : Bool :=
  m.any (fun p => p.1 == k)

/-- `r.inTotal += Number(t.amount || 0); r.inCount += 1` (part_002 line 704). -/
def bumpIn (r : ETot) (t : TxRec) : ETot :=
  { r with inTotal := jsAdd r.inTotal (amountNum t.amount), inCount := r.inCount + 1 }

/-- `r.outTotal += Number(w.amount || 0); r.outCount += 1` (part_002 line 708). -/
def bumpOut (r : ETot) (w : WdRec) : ETot :=
  { r with outTotal := jsAdd r.outTotal (amountNum w.amount), outCount := r.outCount + 1 }

/-- One `tx.forEach` step of the totals map construction (part_002 702-705). -/
def addTx (m : List (String × ETot)) (t : TxRec) : List (String × ETot) :=
  mapSet m t.user_id (bumpIn (mapGetD m t.user_id) t)

/-- One `outsForTotals.forEach` step (part_002 706-709). -/
def addWd (m : List (String × ETot)) (w : WdRec) : List (String × ETot) :=
  mapSet m w.user_id (bumpOut (mapGetD m w.user_id) w)

/-- The per-employee totals map `totals` (part_002 lines 699-709; part_001
lines 142-148 build the same map without the counts and with the flag fixed
to false): fold all IN rows, then the status-filtered OUT rows. -/
def perEmployeeTotals (tx : List TxRec) (wd : List WdRec)
    (includePendingOut : Bool) : List (String × ETot) :=
  (outsForTotals wd includePendingOut).foldl addWd (tx.foldl addTx [])

/-- `net: v.inTotal - v.outTotal` (part_002 line 713). -/
def entryNet (e : ETot) : Option ℚ :=
  jsSub e.inTotal e.outTotal

/-- ASCII model of `s.toLowerCase()`. -/
def lcase (s : String) : String :=
  String.mk (s.data.map Char.toLower)

/-- Model of `s.trim()` (the whitespace of the data in scope). -/
def jsTrim (s : String) : String :=
  String.mk (((s.data.dropWhile Char.isWhitespace).reverse.dropWhile Char.isWhitespace).reverse)

/-- `String(r.status || "pending")` (part_002 line 379): a null, missing or
empty status reads as "pending". -/
def statusStr : Option String → String
  | none => "pending"
  | some s => if s == "" then "pending" else s

/-- `needle` occurs at the start of the second list. -/
def prefixB : List Char → List Char → Bool
  | [], _ => true
  | _ :: _, [] => false
  | c :: cs, d :: ds => c == d && prefixB cs ds

/-- `needle` occurs somewhere in the second list (JS `String.includes`). -/
def infixB (needle : List Char) : List Char → Bool
  | [] => prefixB needle []
  | c :: rest => prefixB needle (c :: rest) || infixB needle rest

/-- `hay.includes(q)`. -/
def strIncludes (hay q : String) : Bool :=
  infixB q.data hay.data

/-- Separators of the pretty-name computation: the regex `[._-]+` is replaced
by a space and the result split on spaces with empties dropped, which is the
same as splitting on any of `.`, `_`, `-`, space. -/
def isSep (c : Char) : Bool :=
  c == '.' || c == '_' || c == '-' || c == ' '

/-- Split into maximal runs of non-separator characters (empties dropped,
matching `.split(" ").filter(Boolean)` after the `[._-]+ → " "` replace). -/
def splitSepsAux : List Char → List Char → List (List Char)
  | [], acc => if acc.isEmpty then [] else [acc.reverse]
  | c :: cs, acc =>
    if isSep c then
      (if acc.isEmpty then splitSepsAux cs [] else acc.reverse :: splitSepsAux cs [])
    else splitSepsAux cs (c :: acc)

def splitSeps (s : List Char) : List (List Char) :=
  splitSepsAux s []

/-- `w[0].toUpperCase() + w.slice(1)`. -/
def capFirst : List Char → List Char
  | [] => []
  | c :: cs => c.toUpper :: cs

/-- `tokens.join(" ")`. -/
def joinSp : List String → String
  | [] => ""
  | [w] => w
  | w :: ws => w ++ " " ++ joinSp ws

/-- The pretty name built from an email local part (part_002 lines 352-353):
replace runs of `[._-]` by spaces, split, drop empties, capitalize each word,
join with spaces. -/
def titleCase (s : String) : String :=
  joinSp ((splitSeps s.data).map (fun t => String.mk (capFirst t)))

/-- `u.email.split("@")[0] || u.email` (part_002 line 351): the part before
the first `@`, or the whole email when that part is empty. -/
def localPart (em : String) : String :=
  let l0 := String.mk (em.data.takeWhile (fun c => c != '@'))
  if l0 == "" then em else l0

/-- `uid?.slice(0, 8) || "unknown"` (part_002 lines 348 and 356). -/
def sliceFallback (uid : String) : String :=
  let s := String.mk (uid.data.take 8)
  if s == "" then "unknown" else s

/-- The email branch of `nameOf` (part_002 lines 350-355). -/
def nameFromEmail (u : Employee) (uid : String) : String :=
  match u.email with
  | some em =>
    if em == "" then sliceFallback uid
    else
      let pretty := titleCase (localPart em)
      if pretty == "" then em else pretty
  | none => sliceFallback uid

/-- `nameOf` (part_002 lines 346-357), the display-name resolver: trimmed
`full_name` when non-blank, else the title-cased email local part, else the
first 8 characters of the user id (or "unknown" when even that is empty). -/
def nameOf (employees : List Employee) (uid : String) : String :=
  match employees.find? (fun e => e.user_id == uid) with
  | none => sliceFallback uid
  | some u =>
    match u.full_name with
    | some fn => if jsTrim fn == "" then nameFromEmail u uid else jsTrim fn
    | none => nameFromEmail u uid

/-- `employees.find(e => e.user_id === r.user_id)?.email || ""` (part_002
line 384). -/
def emailOf (employees : List Employee) (uid : String) : String :=
  match employees.find? (fun e => e.user_id == uid) with
  | some u => match u.email with | some s => s | none => ""
  | none => ""

/-- The search predicate of `filteredRequests` (part_002 lines 382-387):
lowercased resolved name, email or client account contains the query. -/
def matchesQuery (employees : List Employee) (q : String) (r : WdRec) : Bool :=
  strIncludes (lcase (nameOf employees r.user_id)) q
  || strIncludes (lcase (emailOf employees r.user_id)) q
  || strIncludes (lcase (match r.client_account with | some s => s | none => "")) q

/-- The order of the final `rows.sort((a, b) => new Date(b.created_at) -
new Date(a.created_at))`: `a` comes no later than... i.e. `a` precedes `b`
when `b`'s timestamp is not larger. -/
def laterOrEq (a b : WdRec) : Prop :=
  b.created_at.t ≤ a.created_at.t

instance : DecidableRel laterOrEq :=
  fun a b => inferInstanceAs (Decidable (b.created_at.t ≤ a.created_at.t))

instance : IsTotal WdRec laterOrEq :=
  ⟨fun a b => le_total b.created_at.t a.created_at.t⟩

instance : IsTrans WdRec laterOrEq :=
  ⟨fun _ _ _ h1 h2 => le_trans h2 h1⟩

/-- `filteredRequests` (part_002 lines 376-391): empty for a non-manager;
otherwise filter by status (unless "all"), then by the trimmed lowercased
search text (unless empty), then sort by `created_at` descending.  JS
`Array.sort` with a consistent comparator is a stable sort, modelled by the
stable `insertionSort`. -/
def filterRequests (isManager : Bool) (wd : List WdRec) (reqFilter : String)
    (reqQuery : String) (employees : List Employee) : List WdRec :=
  if !isManager then [] else
  let rows0 := wd
  let rows1 :=
    if reqFilter != "all" then rows0.filter (fun r => lcase (statusStr r.status) == reqFilter)
    else rows0
  let q := lcase (jsTrim reqQuery)
  let rows2 :=
    if q != "" then rows1.filter (fun r => matchesQuery employees q r)
    else rows1
  List.insertionSort laterOrEq rows2

/-- `new Date(y, m, 1)` at month granularity: the Date constructor normalizes
month overflow (month 12 of 2024 is January 2025), so the instant it denotes
is determined by the linear month index `y * 12 + m`. -/
def jsMonthIndex (y m : ℤ) : ℤ :=
  y * 12 + m

/-- The normalized (year, month) pair JS displays for `new Date(y, m, 1)`:
floor division by 12 (Lean's `ℤ` `/` and `%` round toward negative infinity
for the positive divisor 12, like the Date normalization). -/
def jsDateNorm (y m : ℤ) : ℤ × ℤ :=
  (y + m / 12, m % 12)

/-- `monthStartEnd(month, year)` (src/src/App.jsx lines 72-76; the identical
window is built inline in loadData of part_002 lines 297-298 and part_001
lines 96-97): start `new Date(year, month, 1)`, exclusive end
`new Date(year, month + 1, 1)`. -/
def monthStartEnd (month year : ℤ) : ℤ × ℤ :=
  (jsMonthIndex year month, jsMonthIndex year (month + 1))

/-! ### Concrete sample rows used by witnesses and counterexamples -/

/-- A timestamp inside May 2024 (0-indexed month 4). -/
def iMay : Instant := ⟨2024, 4, 100⟩

/-- A later timestamp inside May 2024. -/
def iMay2 : Instant := ⟨2024, 4, 200⟩

/-- A still later timestamp inside May 2024. -/
def iMay3 : Instant := ⟨2024, 4, 300⟩

/-- A rejected withdrawal of 7 by employee u1. -/
def wdRej7 : WdRec := ⟨"u1", .num 7, iMay, some "rejected", none⟩

/-- A pending withdrawal of 5 by employee u1. -/
def wdPend5 : WdRec := ⟨"u1", .num 5, iMay, some "pending", none⟩

/-- An approved withdrawal of 5 by employee u1. -/
def wdAppr5 : WdRec := ⟨"u1", .num 5, iMay2, some "approved", none⟩

/-- A rejected withdrawal of 9 by employee u2. -/
def wdRej9 : WdRec := ⟨"u2", .num 9, iMay3, some "rejected", none⟩

/-- A withdrawal with a missing status. -/
def wdNoStatus : WdRec := ⟨"u1", .num 1, iMay, none, none⟩

/-- A pending withdrawal carrying client account "ACC-742". -/
def wdAcc742 : WdRec := ⟨"u9", .num 3, iMay, some "pending", some "ACC-742"⟩

/-- A deposit of 5 by employee u1. -/
def txFive : TxRec := ⟨"u1", .num 5, iMay⟩

/-- A deposit of 2 by employee u1. -/
def txTwo : TxRec := ⟨"u1", .num 2, iMay2⟩

/-- A deposit of 3 by employee u2. -/
def txOther : TxRec := ⟨"u2", .num 3, iMay⟩

/-- A deposit of 1 by employee u1. -/
def txOne : TxRec := ⟨"u1", .num 1, iMay3⟩

/-- A deposit whose amount is a non-numeric non-empty string. -/
def txBad : TxRec := ⟨"u1", .badStr, iMay⟩

/-- A deposit whose amount is null. -/
def txNull : TxRec := ⟨"u1", .jsNull, iMay⟩

/-- The profile row of the spec's display-name example. -/
def empJane : Employee := ⟨"u1", some "  ", some "jane.doe@x.com"⟩

/-- A profile row with a padded non-blank full name. -/
def empBob : Employee := ⟨"u2", some " Bob ", some "x@y"⟩

/-- A profile row with neither a usable name nor an email. -/
def empBare : Employee := ⟨"u3abcdefgh", none, none⟩

/-! ### Helper lemmas -/

theorem jsAdd_some_zero (a : Option ℚ) : jsAdd a (some 0) = a := by
  cases a with
  | none => rfl
  | some q => simp [jsAdd]

theorem jsAdd_none_right (a : Option ℚ) : jsAdd a none = none := by
  cases a <;> rfl

theorem jsSub_some_zero (a : Option ℚ) : jsSub a (some 0) = a := by
  cases a with
  | none => rfl
  | some q => simp [jsSub]

theorem foldl_addAmtTx_none (l : List TxRec) : l.foldl addAmtTx none = none := by
  induction l with
  | nil => rfl
  | cons t ts ih =>
    have h : addAmtTx none t = none := rfl
    rw [List.foldl_cons, h, ih]

theorem mapGetD_mapSet_self (m : List (String × ETot)) (k : String) (v : ETot) :
    mapGetD (mapSet m k v) k = v := by
  induction m with
  | nil => simp [mapSet, mapGetD]
  | cons p rest ih =>
    by_cases h : p.1 = k
    · have hb : (p.1 == k) = true := beq_iff_eq.mpr h
      simp [mapSet, mapGetD, hb]
    · have hb : (p.1 == k) = false := beq_eq_false_iff_ne.mpr h
      simp [mapSet, mapGetD, hb, ih]

theorem mapGetD_mapSet_ne (m : List (String × ETot)) (k k' : String) (v : ETot)
    (h : k' ≠ k) : mapGetD (mapSet m k v) k' = mapGetD m k' := by
  induction m with
  | nil =>
    have hb : (k == k') = false := beq_eq_false_iff_ne.mpr (Ne.symm h)
    simp [mapSet, mapGetD, hb]
  | cons p rest ih =>
    by_cases h1 : p.1 = k
    · have hb : (p.1 == k) = true := beq_iff_eq.mpr h1
      have hb2 : (k == k') = false := beq_eq_false_iff_ne.mpr (Ne.symm h)
      have hb3 : (p.1 == k') = false := by
        rw [h1]; exact hb2
      simp [mapSet, mapGetD, hb, hb2, hb3]
    · have hb : (p.1 == k) = false := beq_eq_false_iff_ne.mpr h1
      by_cases h2 : p.1 = k'
      · have hb2 : (p.1 == k') = true := beq_iff_eq.mpr h2
        simp [mapSet, mapGetD, hb, hb2]
      · have hb2 : (p.1 == k') = false := beq_eq_false_iff_ne.mpr h2
        simp [mapSet, mapGetD, hb, hb2, ih]

theorem hasKey_mapSet (m : List (String × ETot)) (k k' : String) (v : ETot) :
    hasKey (mapSet m k v) k' = (k == k' || hasKey m k') := by
  induction m with
  | nil => rfl
  | cons p rest ih =>
    show hasKey (if p.1 == k then (k, v) :: rest else p :: mapSet rest k v) k'
      = (k == k' || (p.1 == k' || hasKey rest k'))
    by_cases h1 : p.1 = k
    · have hb : (p.1 == k) = true := beq_iff_eq.mpr h1
      rw [if_pos hb]
      show (k == k' || hasKey rest k') = (k == k' || (p.1 == k' || hasKey rest k'))
      rw [h1]
      cases (k == k') <;> simp
    · have hb : ¬ ((p.1 == k) = true) := by
        rw [beq_iff_eq]; exact h1
      rw [if_neg hb]
      show (p.1 == k' || hasKey (mapSet rest k v) k') = (k == k' || (p.1 == k' || hasKey rest k'))
      rw [ih]
      cases (p.1 == k') <;> cases (k == k') <;> simp

theorem mapGetD_addTx_same (m : List (String × ETot)) (t : TxRec) (uid : String)
    (h : t.user_id = uid) : mapGetD (addTx m t) uid = bumpIn (mapGetD m uid) t := by
  unfold addTx
  rw [h, mapGetD_mapSet_self]

theorem mapGetD_addTx_ne (m : List (String × ETot)) (t : TxRec) (uid : String)
    (h : t.user_id ≠ uid) : mapGetD (addTx m t) uid = mapGetD m uid := by
  unfold addTx
  exact mapGetD_mapSet_ne m t.user_id uid _ (Ne.symm h)

theorem mapGetD_addWd_same (m : List (String × ETot)) (w : WdRec) (uid : String)
    (h : w.user_id = uid) : mapGetD (addWd m w) uid = bumpOut (mapGetD m uid) w := by
  unfold addWd
  rw [h, mapGetD_mapSet_self]

theorem mapGetD_addWd_ne (m : List (String × ETot)) (w : WdRec) (uid : String)
    (h : w.user_id ≠ uid) : mapGetD (addWd m w) uid = mapGetD m uid := by
  unfold addWd
  exact mapGetD_mapSet_ne m w.user_id uid _ (Ne.symm h)

theorem mapGetD_foldl_addTx (tx : List TxRec) :
    ∀ (m : List (String × ETot)) (uid : String),
      mapGetD (tx.foldl addTx m) uid
        = (tx.filter (fun t => t.user_id == uid)).foldl bumpIn (mapGetD m uid) := by
  induction tx with
  | nil => intro m uid; rfl
  | cons t ts ih =>
    intro m uid
    rw [List.foldl_cons, ih]
    by_cases h : t.user_id = uid
    · have hb : (t.user_id == uid) = true := beq_iff_eq.mpr h
      rw [List.filter_cons, if_pos hb, List.foldl_cons, mapGetD_addTx_same m t uid h]
    · have hb : (t.user_id == uid) = false := beq_eq_false_iff_ne.mpr h
      rw [List.filter_cons, if_neg (by rw [hb]; exact Bool.false_ne_true),
        mapGetD_addTx_ne m t uid h]

theorem mapGetD_foldl_addWd (wd : List WdRec) :
    ∀ (m : List (String × ETot)) (uid : String),
      mapGetD (wd.foldl addWd m) uid
        = (wd.filter (fun w => w.user_id == uid)).foldl bumpOut (mapGetD m uid) := by
  induction wd with
  | nil => intro m uid; rfl
  | cons w ws ih =>
    intro m uid
    rw [List.foldl_cons, ih]
    by_cases h : w.user_id = uid
    · have hb : (w.user_id == uid) = true := beq_iff_eq.mpr h
      rw [List.filter_cons, if_pos hb, List.foldl_cons, mapGetD_addWd_same m w uid h]
    · have hb : (w.user_id == uid) = false := beq_eq_false_iff_ne.mpr h
      rw [List.filter_cons, if_neg (by rw [hb]; exact Bool.false_ne_true),
        mapGetD_addWd_ne m w uid h]

theorem hasKey_foldl_addTx (tx : List TxRec) :
    ∀ (m : List (String × ETot)) (uid : String),
      hasKey (tx.foldl addTx m) uid
        = (hasKey m uid || tx.any (fun t => t.user_id == uid)) := by
  induction tx with
  | nil =>
    intro m uid
    show hasKey m uid = (hasKey m uid || false)
    rw [Bool.or_false]
  | cons t ts ih =>
    intro m uid
    rw [List.foldl_cons, ih]
    show (hasKey (addTx m t) uid || ts.any fun t => t.user_id == uid)
      = (hasKey m uid || ((t.user_id == uid) || ts.any fun t => t.user_id == uid))
    unfold addTx
    rw [hasKey_mapSet]
    cases (t.user_id == uid) <;> cases hasKey m uid <;> simp

theorem hasKey_foldl_addWd (wd : List WdRec) :
    ∀ (m : List (String × ETot)) (uid : String),
      hasKey (wd.foldl addWd m) uid
        = (hasKey m uid || wd.any (fun w => w.user_id == uid)) := by
  induction wd with
  | nil =>
    intro m uid
    show hasKey m uid = (hasKey m uid || false)
    rw [Bool.or_false]
  | cons w ws ih =>
    intro m uid
    rw [List.foldl_cons, ih]
    show (hasKey (addWd m w) uid || ws.any fun w => w.user_id == uid)
      = (hasKey m uid || ((w.user_id == uid) || ws.any fun w => w.user_id == uid))
    unfold addWd
    rw [hasKey_mapSet]
    cases (w.user_id == uid) <;> cases hasKey m uid <;> simp

theorem foldl_bumpIn_inTotal (l : List TxRec) :
    ∀ r : ETot, (l.foldl bumpIn r).inTotal = l.foldl addAmtTx r.inTotal := by
  induction l with
  | nil => intro r; rfl
  | cons t ts ih => intro r; rw [List.foldl_cons, List.foldl_cons, ih]; rfl

theorem foldl_bumpIn_outTotal (l : List TxRec) :
    ∀ r : ETot, (l.foldl bumpIn r).outTotal = r.outTotal := by
  induction l with
  | nil => intro r; rfl
  | cons t ts ih => intro r; rw [List.foldl_cons, ih]; rfl

theorem foldl_bumpOut_outTotal (l : List WdRec) :
    ∀ r : ETot, (l.foldl bumpOut r).outTotal = l.foldl addAmtWd r.outTotal := by
  induction l with
  | nil => intro r; rfl
  | cons w ws ih => intro r; rw [List.foldl_cons, List.foldl_cons, ih]; rfl

theorem foldl_bumpOut_inTotal (l : List WdRec) :
    ∀ r : ETot, (l.foldl bumpOut r).inTotal = r.inTotal := by
  induction l with
  | nil => intro r; rfl
  | cons w ws ih => intro r; rw [List.foldl_cons, ih]; rfl

/-- The `inTotal` field of the per-employee entry for `uid` is the amount sum
of exactly the IN rows owned by `uid`. -/
theorem perEmployee_inTotal (tx : List TxRec) (wd : List WdRec) (incl : Bool) (uid : String) :
    (mapGetD (perEmployeeTotals tx wd incl) uid).inTotal
      = sumAmountsTx (tx.filter (fun t => t.user_id == uid)) := by
  unfold perEmployeeTotals
  rw [mapGetD_foldl_addWd, foldl_bumpOut_inTotal, mapGetD_foldl_addTx, foldl_bumpIn_inTotal]
  rfl

/-- The `outTotal` field of the per-employee entry for `uid` is the amount sum
of exactly the status-filtered OUT rows owned by `uid`. -/
theorem perEmployee_outTotal (tx : List TxRec) (wd : List WdRec) (incl : Bool) (uid : String) :
    (mapGetD (perEmployeeTotals tx wd incl) uid).outTotal
      = sumAmountsWd ((outsForTotals wd incl).filter (fun w => w.user_id == uid)) := by
  unfold perEmployeeTotals
  rw [mapGetD_foldl_addWd, foldl_bumpOut_outTotal, mapGetD_foldl_addTx, foldl_bumpIn_outTotal]
  rfl

/-- The key set of the per-employee map: exactly the owners of IN rows and of
status-filtered OUT rows. -/
theorem perEmployee_hasKey (tx : List TxRec) (wd : List WdRec) (incl : Bool) (uid : String) :
    hasKey (perEmployeeTotals tx wd incl) uid = true
      ↔ (∃ t ∈ tx, t.user_id = uid) ∨ (∃ w ∈ outsForTotals wd incl, w.user_id = uid) := by
  unfold perEmployeeTotals
  rw [hasKey_foldl_addWd, hasKey_foldl_addTx]
  show (false || _ || _) = true ↔ _
  simp only [Bool.false_or, Bool.or_eq_true, List.any_eq_true, beq_iff_eq]

theorem mem_insertionSort (l : List WdRec) (r : WdRec) :
    r ∈ List.insertionSort laterOrEq l ↔ r ∈ l :=
  (List.perm_insertionSort laterOrEq l).mem_iff

/-- With a status filter other than "all" and an empty search text,
`filteredRequests` is the status-filtered list, re-sorted. -/
theorem filterRequests_status_only (wd : List WdRec) (filt query : String)
    (employees : List Employee) (hfilt : (filt != "all") = true)
    (hq : lcase (jsTrim query) = "") :
    filterRequests true wd filt query employees
      = List.insertionSort laterOrEq
          (wd.filter (fun r => lcase (statusStr r.status) == filt)) := by
  unfold filterRequests
  rw [if_neg (by intro hc; cases hc)]
  simp only [hfilt, if_pos, hq]
  rw [if_neg (by intro hc; cases hc)]

/-- With the "all" status filter and an empty search text, `filteredRequests`
is the whole list, re-sorted. -/
theorem filterRequests_all_only (wd : List WdRec) (query : String)
    (employees : List Employee) (hq : lcase (jsTrim query) = "") :
    filterRequests true wd "all" query employees
      = List.insertionSort laterOrEq wd := by
  unfold filterRequests
  rw [if_neg (by intro hc; cases hc)]
  simp [hq]

/-- With the "all" status filter and a non-empty (trimmed, lowercased) search
text, `filteredRequests` is the search-filtered list, re-sorted. -/
theorem filterRequests_all_query (wd : List WdRec) (query : String)
    (employees : List Employee) (hq : lcase (jsTrim query) ≠ "") :
    filterRequests true wd "all" query employees
      = List.insertionSort laterOrEq
          (wd.filter (fun r => matchesQuery employees (lcase (jsTrim query)) r)) := by
  unfold filterRequests
  rw [if_neg (by intro hc; cases hc)]
  simp [bne_iff_ne.mpr hq]

/-! ### Claim theorems -/

/-- C8: `monthStartEnd` returns the half-open window from the first instant
of month `m` to the first instant of month `m + 1` (exclusive end); the
December window's exclusive end is the next January's start — in particular
`monthStartEnd(11, 2024)`'s end equals `monthStartEnd(0, 2025)`'s start,
because the Date constructor normalizes `(2024, 12)` to `(2025, 0)`. -/
theorem c8_period_window_rollover :
    (∀ month year : ℤ,
      (monthStartEnd month year).1 = jsMonthIndex year month ∧
      (monthStartEnd month year).2 = jsMonthIndex year (month + 1) ∧
      (monthStartEnd month year).1 < (monthStartEnd month year).2) ∧
    (∀ year : ℤ, (monthStartEnd 11 year).2 = (monthStartEnd 0 (year + 1)).1) ∧
    (monthStartEnd 11 2024).2 = (monthStartEnd 0 2025).1 ∧
    jsDateNorm 2024 12 = (2025, 0) ∧
    (∀ y m : ℤ, jsMonthIndex (jsDateNorm y m).1 (jsDateNorm y m).2 = jsMonthIndex y m) := by
  refine ⟨fun month year => ⟨rfl, rfl, ?_⟩, fun year => ?_, by decide, by decide, fun y m => ?_⟩
  · show jsMonthIndex year month < jsMonthIndex year (month + 1)
    unfold jsMonthIndex
    omega
  · show jsMonthIndex year (11 + 1) = jsMonthIndex (year + 1) 0
    unfold jsMonthIndex
    ring
  · unfold jsDateNorm jsMonthIndex
    ring_nf
    omega

/-- C1 (code bug): with the include-pending flag SET the source takes the
withdrawal list whole, so a REJECTED withdrawal contributes to both the
overall and the per-employee OUT totals (7 here), although the claim — and
the code's own labels "Count pending OUT in totals" and "(approved+pending)"
— say a rejected record never contributes.  With the flag unset, rejected is
correctly excluded. -/
theorem c1_rejected_counted_when_flag_set :
    (managerTotals true [] [wdRej7] true).totalOut = some 7 ∧
    (managerTotals true [] [wdRej7] false).totalOut = some 0 ∧
    (mapGetD (perEmployeeTotals [] [wdRej7] true) "u1").outTotal = some 7 ∧
    (mapGetD (perEmployeeTotals [] [wdRej7] false) "u1").outTotal = some 0 := by
  refine ⟨?_, rfl, ?_, rfl⟩
  · show some ((0 : ℚ) + 7) = some 7
    norm_num
  · show some ((0 : ℚ) + 7) = some 7
    norm_num

/-- C4 counterexample: the total over a single record whose amount is a
non-numeric non-empty string is NaN (`none`), not 0 — the record does not
"contribute exactly 0". -/
theorem c4_malformed_amount_not_zero :
    sumAmountsTx [txBad] = none ∧ sumAmountsTx [txBad] ≠ some 0 := by
  exact ⟨rfl, by decide⟩

/-- C4 (amended): aggregation is total (never raises); an amount that is
null, missing (`undefined`) or the empty string is coerced to 0 and
contributes nothing to any total; but a non-numeric non-empty string amount
is not coerced — it makes every total it enters NaN (`none`), still without
raising. -/
theorem c4_amount_coercion_amended :
    (∀ a : JsAmount, a = JsAmount.jsNull ∨ a = JsAmount.undef ∨ a = JsAmount.emptyStr →
      amountNum a = some 0) ∧
    (∀ (xs ys : List TxRec) (r : TxRec), amountNum r.amount = some 0 →
      sumAmountsTx (xs ++ r :: ys) = sumAmountsTx (xs ++ ys)) ∧
    (∀ (xs ys : List TxRec) (r : TxRec), r.amount = JsAmount.badStr →
      sumAmountsTx (xs ++ r :: ys) = none) := by
  refine ⟨?_, ?_, ?_⟩
  · rintro a (rfl | rfl | rfl) <;> rfl
  · intro xs ys r h
    unfold sumAmountsTx
    rw [List.foldl_append, List.foldl_append, List.foldl_cons]
    have hzero : addAmtTx (List.foldl addAmtTx (some 0) xs) r
        = List.foldl addAmtTx (some 0) xs := by
      unfold addAmtTx
      rw [h, jsAdd_some_zero]
    rw [hzero]
  · intro xs ys r h
    unfold sumAmountsTx
    rw [List.foldl_append, List.foldl_cons]
    have hnan : addAmtTx (List.foldl addAmtTx (some 0) xs) r = none := by
      unfold addAmtTx
      rw [h]
      exact jsAdd_none_right _
    rw [hnan, foldl_addAmtTx_none]

/-- C4 witness: the amended theorem at concrete rows — a null amount drops
out of the sum, and a malformed string amount turns the total into NaN. -/
theorem c4_amount_coercion_amended_witness :
    amountNum JsAmount.jsNull = some 0 ∧
    sumAmountsTx [txNull, txFive] = sumAmountsTx [txFive] ∧
    sumAmountsTx [txFive, txBad] = none := by
  refine ⟨c4_amount_coercion_amended.1 JsAmount.jsNull (Or.inl rfl), ?_, ?_⟩
  · exact c4_amount_coercion_amended.2.1 [] [txFive] txNull rfl
  · exact c4_amount_coercion_amended.2.2 [txFive] [] txBad rfl

/-- C2 counterexample: with the flag unset, an owner whose only record is a
pending withdrawal gets NO entry in the per-employee totals map (the status
filter runs before the grouping), although the claim requires an entry for
every owner occurring in either input sequence. -/
theorem c2_pending_only_owner_missing :
    perEmployeeTotals [] [wdPend5] false = [] ∧
    hasKey (perEmployeeTotals [] [wdPend5] false) "u1" = false := by
  exact ⟨by decide, by decide⟩

/-- C3 counterexample: with the include-pending flag SET, the self OUT total
(which always counts only approved rows) and the per-employee entry for the
same owner (which then counts pending rows too) disagree on a single pending
withdrawal lying inside the period. -/
theorem c3_self_vs_per_employee_flag_set :
    myOutApprovedTotal [wdPend5] "u1" 2024 4 = some 0 ∧
    (mapGetD (perEmployeeTotals [] [wdPend5] true) "u1").outTotal = some 5 ∧
    myOutApprovedTotal [wdPend5] "u1" 2024 4
      ≠ (mapGetD (perEmployeeTotals [] [wdPend5] true) "u1").outTotal := by
  have h1 : myOutApprovedTotal [wdPend5] "u1" 2024 4 = some 0 := rfl
  have h2 : (mapGetD (perEmployeeTotals [] [wdPend5] true) "u1").outTotal = some 5 := by
    show some ((0 : ℚ) + 5) = some 5
    norm_num
  refine ⟨h1, h2, ?_⟩
  rw [h1, h2]
  norm_num

/-- C5: with statusFilter "approved" (and no search text) `filteredRequests`
keeps exactly the rows whose lowercased, pending-defaulted status equals
"approved" — every pending and rejected row is excluded; with "all" every
row passes; on the spec's example list `[pending, approved 5, rejected]` the
result has length 1 and its sole element has amount 5. -/
theorem c5_status_filter_approved :
    (∀ (wd : List WdRec) (employees : List Employee) (r : WdRec),
      r ∈ filterRequests true wd "approved" "" employees
        ↔ r ∈ wd ∧ lcase (statusStr r.status) = "approved") ∧
    (∀ (wd : List WdRec) (employees : List Employee) (r : WdRec),
      r ∈ filterRequests true wd "all" "" employees ↔ r ∈ wd) ∧
    (filterRequests true [wdPend5, wdAppr5, wdRej9] "approved" "" []).length = 1 ∧
    (filterRequests true [wdPend5, wdAppr5, wdRej9] "approved" "" []).map
        (fun w => amountNum w.amount) = [some 5] := by
  refine ⟨?_, ?_, by decide, by decide⟩
  · intro wd employees r
    rw [filterRequests_status_only wd "approved" "" employees (by decide) (by decide),
      mem_insertionSort, List.mem_filter]
    simp only [beq_iff_eq]
  · intro wd employees r
    rw [filterRequests_all_only wd "" employees (by decide), mem_insertionSort]

/-- C6: with statusFilter "all" and a search text that is non-empty after
trimming and lowercasing, `filteredRequests` keeps a row iff the lowercased
resolved display name, the lowercased email, or the lowercased client account
contains the text as a substring, and the result is sorted by `created_at`
descending. -/
theorem c6_search_filter_and_sort (wd : List WdRec) (employees : List Employee)
    (query : String) (hq : lcase (jsTrim query) ≠ "") :
    (∀ r : WdRec, r ∈ filterRequests true wd "all" query employees
      ↔ r ∈ wd ∧ matchesQuery employees (lcase (jsTrim query)) r = true) ∧
    List.Pairwise laterOrEq (filterRequests true wd "all" query employees) := by
  rw [filterRequests_all_query wd query employees hq]
  constructor
  · intro r
    rw [mem_insertionSort, List.mem_filter]
  · exact List.sorted_insertionSort laterOrEq _

/-- C6 witness: searching "acc-7" keeps the row whose client account is
"ACC-742" (case-insensitive substring match), and the result is sorted. -/
theorem c6_search_filter_and_sort_witness :
    wdAcc742 ∈ filterRequests true [wdAcc742] "all" "acc-7" [] ∧
    List.Pairwise laterOrEq (filterRequests true [wdAcc742] "all" "acc-7" []) := by
  have h := c6_search_filter_and_sort [wdAcc742] [] "acc-7" (by decide)
  exact ⟨(h.1 wdAcc742).mpr ⟨by decide, by decide⟩, h.2⟩

/-- C10: a withdrawal whose status is missing (null) or the empty string is
treated as "pending" by `filteredRequests`: it reads as status "pending", is
kept under the "pending" and "all" filters, and is excluded under "approved"
and "rejected". -/
theorem c10_missing_status_pending (wd : List WdRec) (employees : List Employee)
    (r : WdRec) (hs : r.status = none ∨ r.status = some "") (hr : r ∈ wd) :
    statusStr r.status = "pending" ∧
    r ∈ filterRequests true wd "pending" "" employees ∧
    r ∈ filterRequests true wd "all" "" employees ∧
    r ∉ filterRequests true wd "approved" "" employees ∧
    r ∉ filterRequests true wd "rejected" "" employees := by
  have hp : statusStr r.status = "pending" := by
    rcases hs with h | h <;> rw [h] <;> rfl
  refine ⟨hp, ?_, ?_, ?_, ?_⟩
  · rw [filterRequests_status_only wd "pending" "" employees (by decide) (by decide),
      mem_insertionSort, List.mem_filter]
    refine ⟨hr, ?_⟩
    rw [hp]
    decide
  · rw [filterRequests_all_only wd "" employees (by decide), mem_insertionSort]
    exact hr
  · rw [filterRequests_status_only wd "approved" "" employees (by decide) (by decide),
      mem_insertionSort, List.mem_filter]
    rintro ⟨-, hbad⟩
    rw [hp] at hbad
    exact absurd hbad (by decide)
  · rw [filterRequests_status_only wd "rejected" "" employees (by decide) (by decide),
      mem_insertionSort, List.mem_filter]
    rintro ⟨-, hbad⟩
    rw [hp] at hbad
    exact absurd hbad (by decide)

/-- C10 witness: the theorem applied to a concrete row with a missing
status. -/
theorem c10_missing_status_pending_witness :
    statusStr wdNoStatus.status = "pending" ∧
    wdNoStatus ∈ filterRequests true [wdNoStatus] "pending" "" [] ∧
    wdNoStatus ∉ filterRequests true [wdNoStatus] "approved" "" [] := by
  have h := c10_missing_status_pending [wdNoStatus] [] wdNoStatus (Or.inl rfl) (by decide)
  exact ⟨h.1, h.2.1, h.2.2.2.1⟩

/-- C2 (amended): the per-employee totals map has an entry exactly for every
owner occurring in the deposits or in the STATUS-FILTERED withdrawals
(approved rows only when the flag is unset, all rows when it is set); for any
owner the entry's `inTotal` is the sum of that owner's deposits and its
`outTotal` the sum of that owner's counted withdrawals (an absent entry reads
as the zero entry), so an owner with deposits but no counted withdrawals gets
`outTotal = 0` and `net = inTotal`. -/
theorem c2_totals_entries_amended (tx : List TxRec) (wd : List WdRec)
    (incl : Bool) (uid : String) :
    (hasKey (perEmployeeTotals tx wd incl) uid = true
      ↔ (∃ t ∈ tx, t.user_id = uid) ∨ (∃ w ∈ outsForTotals wd incl, w.user_id = uid)) ∧
    (mapGetD (perEmployeeTotals tx wd incl) uid).inTotal
      = sumAmountsTx (tx.filter (fun t => t.user_id == uid)) ∧
    (mapGetD (perEmployeeTotals tx wd incl) uid).outTotal
      = sumAmountsWd ((outsForTotals wd incl).filter (fun w => w.user_id == uid)) ∧
    ((∀ w ∈ outsForTotals wd incl, w.user_id ≠ uid) →
      (mapGetD (perEmployeeTotals tx wd incl) uid).outTotal = some 0 ∧
      entryNet (mapGetD (perEmployeeTotals tx wd incl) uid)
        = (mapGetD (perEmployeeTotals tx wd incl) uid).inTotal) := by
  refine ⟨perEmployee_hasKey tx wd incl uid, perEmployee_inTotal tx wd incl uid,
    perEmployee_outTotal tx wd incl uid, ?_⟩
  intro hno
  have hfilt : (outsForTotals wd incl).filter (fun w => w.user_id == uid) = [] := by
    rw [List.filter_eq_nil_iff]
    intro w hw hb
    exact hno w hw (beq_iff_eq.mp hb)
  have hout : (mapGetD (perEmployeeTotals tx wd incl) uid).outTotal = some 0 := by
    rw [perEmployee_outTotal, hfilt]
    rfl
  refine ⟨hout, ?_⟩
  unfold entryNet
  rw [hout, jsSub_some_zero]

/-- C2 witness: an owner with three deposits and no withdrawals has an entry,
`outTotal = 0` and `net = inTotal`. -/
theorem c2_totals_entries_amended_witness :
    hasKey (perEmployeeTotals [txFive, txTwo, txOne] [] false) "u1" = true ∧
    (mapGetD (perEmployeeTotals [txFive, txTwo, txOne] [] false) "u1").outTotal = some 0 ∧
    entryNet (mapGetD (perEmployeeTotals [txFive, txTwo, txOne] [] false) "u1")
      = (mapGetD (perEmployeeTotals [txFive, txTwo, txOne] [] false) "u1").inTotal := by
  have h := c2_totals_entries_amended [txFive, txTwo, txOne] [] false "u1"
  have hk : hasKey (perEmployeeTotals [txFive, txTwo, txOne] [] false) "u1" = true :=
    (h.1).mpr (Or.inl ⟨txFive, by decide, rfl⟩)
  have hrest := h.2.2.2 (fun w hw => absurd hw (List.not_mem_nil w))
  exact ⟨hk, hrest.1, hrest.2⟩

/-- `outsForTotals` with the flag unset is the approved-only filter. -/
theorem outsForTotals_false (wd : List WdRec) :
    outsForTotals wd false = wd.filter (fun w => w.status == some "approved") := rfl

/-- C3 (amended): when the include-pending flag is unset and every fetched
record lies inside the selected period (which the month-scoped fetch
guarantees), the self totals for an owner equal the `inTotal` and `outTotal`
of that owner's per-employee entry computed from the same collections (an
absent entry reads as the zero entry).  With the flag set the two disagree:
the self OUT total always counts only approved rows. -/
theorem c3_self_matches_per_employee_amended (tx : List TxRec) (wd : List WdRec)
    (uid : String) (y m : ℤ)
    (htx : ∀ t ∈ tx, inMonth t.created_at y m = true)
    (hwd : ∀ w ∈ wd, inMonth w.created_at y m = true) :
    myInTotal tx uid y m = (mapGetD (perEmployeeTotals tx wd false) uid).inTotal ∧
    myOutApprovedTotal wd uid y m
      = (mapGetD (perEmployeeTotals tx wd false) uid).outTotal := by
  constructor
  · rw [perEmployee_inTotal]
    unfold myInTotal myTxThisMonth
    congr 1
    apply List.filter_congr
    intro t ht
    rw [htx t ht, Bool.and_true]
  · rw [perEmployee_outTotal, outsForTotals_false, List.filter_filter]
    unfold myOutApprovedTotal myWdThisMonth myWdAll
    congr 1
    rw [List.filter_filter, List.filter_filter]
    apply List.filter_congr
    intro w hw
    rw [hwd w hw]
    cases (w.user_id == uid) <;> cases (w.status == some "approved") <;> rfl

/-- C3 witness: the amended theorem on a one-deposit, one-approved-withdrawal
snapshot of May 2024. -/
theorem c3_self_matches_per_employee_amended_witness :
    myInTotal [txFive] "u1" 2024 4
      = (mapGetD (perEmployeeTotals [txFive] [wdAppr5] false) "u1").inTotal ∧
    myOutApprovedTotal [wdAppr5] "u1" 2024 4
      = (mapGetD (perEmployeeTotals [txFive] [wdAppr5] false) "u1").outTotal :=
  c3_self_matches_per_employee_amended [txFive] [wdAppr5] "u1" 2024 4
    (by decide) (by decide)

/-- The email branch of `nameOf` when the email is usable and yields a
non-empty pretty name. -/
theorem nameFromEmail_titleCase (u : Employee) (uid : String) (em : String)
    (hem : u.email = some em) (hne : em ≠ "") (htc : titleCase (localPart em) ≠ "") :
    nameFromEmail u uid = titleCase (localPart em) := by
  unfold nameFromEmail
  rw [hem]
  show (if em == "" then sliceFallback uid
    else if titleCase (localPart em) == "" then em else titleCase (localPart em))
    = titleCase (localPart em)
  rw [if_neg (by rw [beq_iff_eq]; exact hne), if_neg (by rw [beq_iff_eq]; exact htc)]

/-- The email branch of `nameOf` when there is no usable email. -/
theorem nameFromEmail_slice (u : Employee) (uid : String)
    (hem : u.email = none ∨ u.email = some "") :
    nameFromEmail u uid = sliceFallback uid := by
  unfold nameFromEmail
  rcases hem with h | h
  · rw [h]
  · rw [h]
    show (if "" == "" then sliceFallback uid
      else if titleCase (localPart "") == "" then "" else titleCase (localPart ""))
      = sliceFallback uid
    rw [if_pos (by rw [beq_iff_eq])]

/-- For a non-empty owner id, the fallback is the first 8 characters. -/
theorem sliceFallback_take (uid : String) (h : uid ≠ "") :
    sliceFallback uid = String.mk (uid.data.take 8) := by
  unfold sliceFallback
  show (if String.mk (uid.data.take 8) == "" then "unknown" else String.mk (uid.data.take 8))
    = String.mk (uid.data.take 8)
  rw [if_neg ?hcond]
  case hcond =>
    intro hb
    have h2 := congrArg String.data (beq_iff_eq.mp hb)
    have hd : uid.data.take 8 = [] := h2
    rcases List.take_eq_nil_iff.mp hd with h8 | hnil
    · exact absurd h8 (by decide)
    · obtain ⟨d⟩ := uid
      have : d = [] := hnil
      subst this
      exact h rfl

/-- Reduction of `nameOf` once the profile lookup is known. -/
theorem nameOf_found (employees : List Employee) (uid : String) (u : Employee)
    (hfind : employees.find? (fun e => e.user_id == uid) = some u) :
    nameOf employees uid
      = (match u.full_name with
        | some fn => if jsTrim fn == "" then nameFromEmail u uid else jsTrim fn
        | none => nameFromEmail u uid) := by
  unfold nameOf
  rw [hfind]

/-- C7: `nameOf` (the display-name resolver) for a found profile row: it
returns the trimmed `full_name` when that is non-blank; otherwise, when a
non-empty email is present whose local part yields at least one token, the
title-cased name built from the local part split on `.`, `_`, `-`;
otherwise (no usable name, no usable email) the first 8 characters of the
(non-empty) owner id. -/
theorem c7_resolve_display_name (employees : List Employee) (uid : String)
    (u : Employee) (hfind : employees.find? (fun e => e.user_id == uid) = some u) :
    (∀ fn, u.full_name = some fn → jsTrim fn ≠ "" → nameOf employees uid = jsTrim fn) ∧
    (∀ em, (u.full_name = none ∨ ∃ fn, u.full_name = some fn ∧ jsTrim fn = "") →
      u.email = some em → em ≠ "" → titleCase (localPart em) ≠ "" →
      nameOf employees uid = titleCase (localPart em)) ∧
    ((u.full_name = none ∨ ∃ fn, u.full_name = some fn ∧ jsTrim fn = "") →
      (u.email = none ∨ u.email = some "") → uid ≠ "" →
      nameOf employees uid = String.mk (uid.data.take 8)) := by
  have hstep := nameOf_found employees uid u hfind
  refine ⟨?_, ?_, ?_⟩
  · intro fn hfn htrim
    rw [hstep, hfn]
    show (if jsTrim fn == "" then nameFromEmail u uid else jsTrim fn) = jsTrim fn
    rw [if_neg (by rw [beq_iff_eq]; exact htrim)]
  · intro em hblank hem hne htc
    have hmail : nameFromEmail u uid = titleCase (localPart em) :=
      nameFromEmail_titleCase u uid em hem hne htc
    rcases hblank with h | ⟨fn, hfn, htrim0⟩
    · rw [hstep, h]
      exact hmail
    · rw [hstep, hfn]
      show (if jsTrim fn == "" then nameFromEmail u uid else jsTrim fn)
        = titleCase (localPart em)
      rw [if_pos (by rw [beq_iff_eq]; exact htrim0)]
      exact hmail
  · intro hblank hmail huid
    have hslice : nameFromEmail u uid = sliceFallback uid := nameFromEmail_slice u uid hmail
    have htake := sliceFallback_take uid huid
    rcases hblank with h | ⟨fn, hfn, htrim0⟩
    · rw [hstep, h]
      rw [hslice, htake]
    · rw [hstep, hfn]
      show (if jsTrim fn == "" then nameFromEmail u uid else jsTrim fn)
        = String.mk (uid.data.take 8)
      rw [if_pos (by rw [beq_iff_eq]; exact htrim0), hslice, htake]

/-- C7 witness: the spec's example — a blank full name "  " with email
"jane.doe@x.com" resolves to "Jane Doe" — plus the trimmed-name and
first-8-characters branches on concrete rows. -/
theorem c7_resolve_display_name_witness :
    nameOf [empJane] "u1" = "Jane Doe" ∧
    nameOf [empBob] "u2" = "Bob" ∧
    nameOf [empBare] "u3abcdefgh" = "u3abcdef" := by
  have h1 := c7_resolve_display_name [empJane] "u1" empJane rfl
  have h2 := c7_resolve_display_name [empBob] "u2" empBob rfl
  have h3 := c7_resolve_display_name [empBare] "u3abcdefgh" empBare rfl
  refine ⟨?_, ?_, ?_⟩
  · have hj := h1.2.1 "jane.doe@x.com" (Or.inr ⟨"  ", rfl, by decide⟩) rfl
      (by decide) (by decide)
    rw [hj]
    decide
  · have hb := h2.1 " Bob " rfl (by decide)
    rw [hb]
    decide
  · have hu := h3.2.2 (Or.inl rfl) (Or.inl rfl) (by decide)
    rw [hu]
    decide

/-- C9: every row of the employee's own-record view (own IN rows, own
withdrawal requests, own month rows) carries the viewer's own user id, and
the derived self totals depend only on the viewer's own rows — removing every
other owner's rows from the input changes nothing. -/
theorem c9_own_view_owner_invariant (tx : List TxRec) (wd : List WdRec)
    (uid : String) (y m : ℤ) :
    (∀ t ∈ myTxThisMonth tx uid y m, t.user_id = uid) ∧
    (∀ w ∈ myWdAll wd uid, w.user_id = uid) ∧
    (∀ w ∈ myWdThisMonth wd uid y m, w.user_id = uid) ∧
    myInTotal tx uid y m = myInTotal (tx.filter (fun t => t.user_id == uid)) uid y m ∧
    myOutApprovedTotal wd uid y m
      = myOutApprovedTotal (wd.filter (fun w => w.user_id == uid)) uid y m := by
  refine ⟨?_, ?_, ?_, ?_, ?_⟩
  · intro t ht
    unfold myTxThisMonth at ht
    rw [List.mem_filter, Bool.and_eq_true] at ht
    exact beq_iff_eq.mp ht.2.1
  · intro w hw
    unfold myWdAll at hw
    rw [List.mem_filter] at hw
    exact beq_iff_eq.mp hw.2
  · intro w hw
    unfold myWdThisMonth myWdAll at hw
    rw [List.mem_filter, List.mem_filter] at hw
    exact beq_iff_eq.mp hw.1.2
  · unfold myInTotal myTxThisMonth
    congr 1
    rw [List.filter_filter]
    apply List.filter_congr
    intro t _
    cases (t.user_id == uid) <;> cases inMonth t.created_at y m <;> rfl
  · unfold myOutApprovedTotal myWdThisMonth myWdAll
    have hdup : (wd.filter (fun w => w.user_id == uid)).filter (fun w => w.user_id == uid)
        = wd.filter (fun w => w.user_id == uid) := by
      rw [List.filter_filter]
      apply List.filter_congr
      intro w _
      cases (w.user_id == uid) <;> rfl
    rw [hdup]

/-- C9 witness: the invariant applied to a concrete mixed-owner snapshot. -/
theorem c9_own_view_owner_invariant_witness :
    txFive.user_id = "u1" ∧ wdAppr5.user_id = "u1" ∧
    myInTotal [txFive, txOther] "u1" 2024 4
      = myInTotal ([txFive, txOther].filter (fun t => t.user_id == "u1")) "u1" 2024 4 := by
  have h := c9_own_view_owner_invariant [txFive, txOther] [wdAppr5] "u1" 2024 4
  exact ⟨h.1 txFive (by decide), h.2.1 wdAppr5 (by decide), h.2.2.2.1⟩

end Inout
